import Mathlib

/-!
Verification development for the `envargparse` repository: an
argument-resolution layer on top of an argparse-style command-line parser
that lets declared arguments also be satisfied from environment variables.

The definitions below shallowly embed `src/envargparse.py` (class
`EnvArgParser` and its collaborators).  Components of the host library
(CPython's `argparse` and `shlex`) that the repository calls into are
embedded from their documented behaviour, as the spec prescribes for
external collaborators; such definitions say so in their doc comments.
-/

namespace EnvArg

/-- Python values that can live in an argparse namespace: `None`, ints,
strings, lists, and the `argparse.SUPPRESS` sentinel. -/
inductive Value where
  | pyNone
  | int (n : Int)
  | str (s : String)
  | list (vs : List Value)
  | suppress
  deriving Repr

/-- The identity check `v is argparse.SUPPRESS` against the sentinel. -/
def Value.isSuppress : Value → Bool
  | .suppress => true
  | _ => false

/-- An argparse namespace: a finite attribute map from `dest` names to
values (`setattr`/`getattr` on `argparse.Namespace`). -/
abbrev NS := List (String × Value)

/-- Lookup `getattr(namespace, dest, <missing>)`. -/
def nsGet : NS → String → Option Value
  | [], _ => none
  | (d, v) :: rest, d2 => if d = d2 then some v else nsGet rest d2

/-- Assignment `setattr(namespace, dest, value)`: overwrite or append. -/
def nsSet : NS → String → Value → NS
  | [], d, v => [(d, v)]
  | (d1, v1) :: rest, d, v =>
      if d1 = d then (d1, v) :: rest else (d1, v1) :: nsSet rest d v

/-- Test `hasattr(namespace, dest)`. -/
def nsHas (ns : NS) (d : String) : Bool := (nsGet ns d).isSome

/-! ## Tokenizer: `shlex.split` in POSIX mode with `whitespace_split`

Embedded from CPython `Lib/shlex.py` (`shlex.read_token`) as invoked by
`EnvArgParser.env_var_parse` via `shlex.split(v)`: `posix=True`,
`whitespace_split=True`, comments disabled.  The token-reading loop is a
character-at-a-time state machine; malformed quoting raises
`ValueError("No closing quotation")`, a trailing escape raises
`ValueError("No escaped character")`. -/

/-- Membership in `shlex.whitespace`, the four characters space, tab,
carriage return and newline. -/
def isShWhitespace (c : Char) : Bool :=
  c = ' ' || c = '\t' || c = '\r' || c = '\n'

/-- The single-quote character. -/
def squote : Char := Char.ofNat 39

/-- The backslash escape character (`shlex.escape`). -/
def bslash : Char := '\\'

/-- States of the `shlex.read_token` machine, flattened across successive
`read_token` calls.  `word` is shlex state `'a'`; `escWord`/`escDouble`
are the escape state with `escapedstate` `'a'` resp. `'"'` (single quotes
admit no escapes, and `escapedquotes` contains only the double quote). -/
inductive LexState where
  | ws
  | word
  | inSingle
  | inDouble
  | escWord
  | escDouble
  deriving Repr, DecidableEq

/-- One full run of repeated `shlex.read_token` calls over the remaining
characters.  `tok` is the token accumulator, `quoted` the per-token quoted
flag, `acc` the tokens emitted so far.  Errors mirror the `ValueError`s
raised by shlex. -/
def shlexRun : List Char → LexState → List Char → Bool → List String →
    Except String (List String)
  | [], .ws, _, _, acc => .ok acc
  | [], .word, tok, quoted, acc =>
      if tok ≠ [] || quoted then .ok (acc ++ [String.mk tok]) else .ok acc
  | [], .inSingle, _, _, _ => .error "No closing quotation"
  | [], .inDouble, _, _, _ => .error "No closing quotation"
  | [], .escWord, _, _, _ => .error "No escaped character"
  | [], .escDouble, _, _, _ => .error "No escaped character"
  | c :: rest, .ws, tok, quoted, acc =>
      if isShWhitespace c then shlexRun rest .ws tok quoted acc
      else if c = bslash then shlexRun rest .escWord tok quoted acc
      else if c = squote then shlexRun rest .inSingle tok quoted acc
      else if c = '"' then shlexRun rest .inDouble tok quoted acc
      else shlexRun rest .word (tok ++ [c]) quoted acc
  | c :: rest, .word, tok, quoted, acc =>
      if isShWhitespace c then
        if tok ≠ [] || quoted then
          shlexRun rest .ws [] false (acc ++ [String.mk tok])
        else shlexRun rest .ws [] false acc
      else if c = squote then shlexRun rest .inSingle tok quoted acc
      else if c = '"' then shlexRun rest .inDouble tok quoted acc
      else if c = bslash then shlexRun rest .escWord tok quoted acc
      else shlexRun rest .word (tok ++ [c]) quoted acc
  | c :: rest, .inSingle, tok, _, acc =>
      if c = squote then shlexRun rest .word tok true acc
      else shlexRun rest .inSingle (tok ++ [c]) true acc
  | c :: rest, .inDouble, tok, _, acc =>
      if c = '"' then shlexRun rest .word tok true acc
      else if c = bslash then shlexRun rest .escDouble tok true acc
      else shlexRun rest .inDouble (tok ++ [c]) true acc
  | c :: rest, .escWord, tok, quoted, acc =>
      shlexRun rest .word (tok ++ [c]) quoted acc
  | c :: rest, .escDouble, tok, quoted, acc =>
      if c ≠ bslash ∧ c ≠ '"' then
        shlexRun rest .inDouble (tok ++ [bslash, c]) quoted acc
      else shlexRun rest .inDouble (tok ++ [c]) quoted acc

/-- The call `shlex.split(s)` as used by `env_var_parse`. -/
def shlexSplit (s : String) : Except String (List String) :=
  shlexRun s.data .ws [] false []

/-! ## ArityMatcher: `ArgumentParser._match_argument`

Embedded from the documented behaviour of the host library that
`env_var_parse` delegates to (`p._match_argument(a, "A"*len(v))`): a
left-anchored greedy regular-expression match of the nargs pattern against
a run of `len(v)` argument markers, returning the number of consumed
markers, or an `ArgumentError` ("expected ... arguments") when the pattern
cannot match. -/

/-- Arity patterns.  `one` is `nargs=None`, `optional` is `"?"`,
`zeroOrMore` is `"*"`, `oneOrMore` is `"+"`, `exact n` is an integer
nargs.  `range` is the spec's `Range(min, optional max)` pattern.
Modelled from the spec: the `Range` arity pattern of §4.2 has no `nargs`
counterpart in the source, so its greedy left-anchored matching is taken
from the spec's words. -/
inductive Nargs where
  | one
  | optional
  | zeroOrMore
  | oneOrMore
  | exact (n : Nat)
  | range (lo : Nat) (hi : Option Nat)
  deriving Repr, DecidableEq

/-- Number of leading tokens consumed by a greedy left-anchored match of
the pattern against `len` available tokens; `none` is the no-match
`ArgumentError`. -/
def matchArgument : Nargs → Nat → Option Nat
  | .one, len => if 1 ≤ len then some 1 else none
  | .optional, len => some (min 1 len)
  | .zeroOrMore, len => some len
  | .oneOrMore, len => if 1 ≤ len then some len else none
  | .exact n, len => if n ≤ len then some n else none
  | .range lo none, len => if lo ≤ len then some len else none
  | .range lo (some hi), len => if lo ≤ len then some (min hi len) else none

/-- The consumed/leftover split `(v[:n], v[n:])` that `env_var_parse`
derives from `_match_argument`. -/
def arityMatch (p : Nargs) (v : List String) : Option (List String × List String) :=
  (matchArgument p v.length).map (fun n => (v.take n, v.drop n))

/-! ## Actions and value conversion -/

/-- Conversion functions passed as `type=` (the repository's example uses
`int`; argparse's default is the identity on strings). -/
inductive ConvType where
  | toStr
  | toInt
  deriving Repr, DecidableEq

/-- Python `int(s)`: optional surrounding whitespace, optional sign,
nonempty digit string. -/
def pyInt (s : String) : Option Int :=
  let chars := (s.data.dropWhile isShWhitespace).reverse
  let chars := (chars.dropWhile isShWhitespace).reverse
  let (neg, digits) :=
    match chars with
    | c :: rest => if c = '-' then (true, rest)
                   else if c = '+' then (false, rest)
                   else (false, chars)
    | [] => (false, chars)
  if digits ≠ [] ∧ digits.all Char.isDigit then
    let n : Nat := digits.foldl (fun acc c => acc * 10 + (c.toNat - 48)) 0
    some (if neg then -(n : Int) else (n : Int))
  else none

/-- The `dest` value `argparse.SUPPRESS`, used as the sentinel destination
name in the `action.dest is argparse.SUPPRESS` skip of
`parse_args_post`. -/
def suppressDest : String := "==SUPPRESS=="

/-- One declared argument (`argparse.Action` as the repository uses it:
store actions with dest, option strings, nargs, required, default, const
and type).  `id` stands for Python object identity. -/
structure Action where
  id : Nat
  dest : String
  optionStrings : List String
  nargs : Nargs
  required : Bool
  default : Value
  const : Value
  typ : ConvType
  deriving Repr

/-- Exceptions crossing the embedded code: `argparse.ArgumentError`
(carrying the responsible argument), plain `ValueError` (what
`shlex.split` raises), and `SystemExit` via `ArgumentParser.error` — the
ErrorReporter collaborator having been handed a structured message. -/
inductive Err where
  | argumentError (argName : String) (msg : String)
  | valueError (msg : String)
  | systemExit (msg : String)
  deriving Repr, DecidableEq

/-- Conversion `ArgumentParser._get_value`: apply `action.type`; failures
become `ArgumentError`s naming the argument.  Embedded from the host
library's documented behaviour. -/
def getValue (a : Action) (s : String) : Except Err Value :=
  match a.typ with
  | .toStr => .ok (.str s)
  | .toInt =>
      match pyInt s with
      | some n => .ok (.int n)
      | none => .error (.argumentError a.dest ("invalid int value: " ++ s))

/-- Convert each token, failing on the first bad one. -/
def getValueList (a : Action) : List String → Except Err (List Value)
  | [] => .ok []
  | s :: rest => do
      let v ← getValue a s
      let vs ← getValueList a rest
      return v :: vs

/-- Extraction `ArgumentParser._get_values` on the branches the repository exercises
(store actions, no choices): zero tokens with `"?"` take `const` for
optionals and `default` for positionals, converting string values; zero
tokens with `"*"` on a positional take the default when it is not `None`;
a single token with `nargs` in `[None, "?"]` converts that token; all
remaining patterns convert token-wise into a list.  Embedded from the
host library's documented behaviour. -/
def getValuesBase (a : Action) (args : List String) : Except Err Value :=
  if args = [] ∧ a.nargs = .optional then
    let v := if a.optionStrings ≠ [] then a.const else a.default
    match v with
    | .str s => getValue a s
    | v => .ok v
  else if args = [] ∧ a.nargs = .zeroOrMore ∧ a.optionStrings = [] then
    match a.default with
    | .pyNone => .ok (.list [])
    | d => .ok d
  else if args.length = 1 ∧ (a.nargs = .one ∨ a.nargs = .optional) then
    getValue a (args.headD "")
  else
    (getValueList a args).map .list

/-! ## Parser, environment records, and pass state -/

/-- Insert into the `seen_actions` set (`set.add`). -/
def insertSeen (i : Nat) (s : List Nat) : List Nat :=
  if i ∈ s then s else s ++ [i]

/-- Mutable parser state threaded through one or more resolution passes:
the `seen_actions` set, the `_parsing_depth` counter, the per-action call
counts kept by the `EnvArgAction` wrappers, and two event counters
(`clears`, `postRuns`) recording how often `seen_actions.clear()` and
`parse_args_post` have run. -/
structure St where
  seen : List Nat
  depth : Nat
  callCounts : List (Nat × Nat)
  clears : Nat
  postRuns : Nat
  deriving Repr

/-- Read `action.call_count`. -/
def ccOf (st : St) (i : Nat) : Nat :=
  match st.callCounts.lookup i with
  | some n => n
  | none => 0

/-- Increment an `EnvArgAction.call_count` (its `__call__`). -/
def bumpCC (st : St) (i : Nat) : St :=
  { st with callCounts := (i, ccOf st i + 1) :: st.callCounts.filter (fun p => p.1 ≠ i) }

/-- Override `EnvArgParser._get_values`: add the action to the parser's own
`seen_actions`, then delegate to the base class through
`Action.get_values`. -/
def getValuesP (a : Action) (args : List String) (seen : List Nat) :
    List Nat × Except Err Value :=
  (insertSeen a.id seen, getValuesBase a args)

/-- An environment-variable parsing function (`env_f`): receives the
parser (here: the `seen_actions` it may touch through `_get_values`), the
action, the key and the raw value, and returns `(used_values,
extra_values)` or raises. -/
abbrev EnvFun := List Nat → Action → String → String →
    List Nat × Except Err (Value × List String)

/-- Resolver `EnvArgParser.env_var_parse`: tokenize with `shlex.split` (a failure
there is a plain `ValueError`), match the arity against `"A"*len(v)`
(failure is an `ArgumentError`), then convert the consumed tokens through
`self._get_values` and return the leftover tokens. -/
def envVarParse : EnvFun := fun seen a _k v =>
  match shlexSplit v with
  | .error msg => (seen, .error (.valueError msg))
  | .ok toks =>
      match matchArgument a.nargs toks.length with
      | none => (seen, .error (.argumentError a.dest "expected argument(s)"))
      | some n =>
          match getValuesP a (toks.take n) seen with
          | (seen, .error e) => (seen, .error e)
          | (seen, .ok val) => (seen, .ok (val, toks.drop n))

/-- Record `EnvArgRecord`: attached to an action that declared an environment
key.  `a` is the owning-action back-reference, `k` the key, `f` the
resolution function, `v` the raw value, `p` the presence flag. -/
structure EnvRecord where
  a : Action
  k : String
  f : EnvFun
  v : String
  p : Bool

/-- An action as registered in `_actions`, together with the optional
`env_var` attribute (`getattr` raising `AttributeError` is the `none`
case). -/
structure ActionEntry where
  action : Action
  envRec : Option EnvRecord

/-- The registered actions of an `EnvArgParser`, in declaration order. -/
structure Parser where
  actions : List ActionEntry

/-- The environment-handling tail of `EnvArgParser.add_argument` (lines
106-137): read `os.environ` once, relax `required` when the variable is
present, and attach the `EnvArgRecord` to the action. -/
def attachEnv (env : String → Option String) (a : Action) (k : String)
    (f : EnvFun) : ActionEntry :=
  let p := (env k).isSome
  let v := (env k).getD ""
  let a := if p ∧ a.required then { a with required := false } else a
  { action := a, envRec := some { a := a, k := k, f := f, v := v, p := p } }

/-- An action declared without an environment key. -/
def plainEntry (a : Action) : ActionEntry := { action := a, envRec := none }

/-! ## The post-pass: `EnvArgParser.parse_args_post` -/

/-- The loop body of `parse_args_post` over `self._actions`: skip
suppressed destinations, skip actions both called and seen, skip actions
without an `env_var` record, skip records whose back-reference is not the
action itself (`i.a is not action`, an identity check), skip absent
variables; otherwise mark the action seen, run `i.f`, extend the extras
with the leftover tokens, and — unless the value is the `SUPPRESS`
sentinel — call the wrapped action (`i.a(self, namespace, v, i.k)`),
which bumps its call count and stores the value at its dest.  An
exception aborts the remaining iteration. -/
def postLoop : List ActionEntry → St → NS → List String →
    St × Except Err (NS × List String)
  | [], st, ns, extras => (st, .ok (ns, extras))
  | ⟨a, rec?⟩ :: rest, st, ns, extras =>
      if a.dest = suppressDest then postLoop rest st ns extras
      else if ccOf st a.id > 0 ∧ a.id ∈ st.seen then postLoop rest st ns extras
      else
        match rec? with
        | none => postLoop rest st ns extras
        | some i =>
            if i.a.id ≠ a.id then postLoop rest st ns extras
            else if ¬ i.p then postLoop rest st ns extras
            else
              let st := { st with seen := insertSeen a.id st.seen }
              match i.f st.seen i.a i.k i.v with
              | (seen2, .error e) => ({ st with seen := seen2 }, .error e)
              | (seen2, .ok (v, e)) =>
                  let st := { st with seen := seen2 }
                  let extras := extras ++ e
                  if v.isSuppress then postLoop rest st ns extras
                  else
                    postLoop rest (bumpCC st i.a.id) (nsSet ns i.a.dest v) extras

/-- Method `EnvArgParser.parse_args_post` (undecorated body), with the ghost
`postRuns` event counter bumped on entry. -/
def parseArgsPost (p : Parser) (st : St) (ns : NS) (extras : List String) :
    St × Except Err (NS × List String) :=
  postLoop p.actions { st with postRuns := st.postRuns + 1 } ns extras

/-- The `argument_error_and_exit` decorator: an `argparse.ArgumentError`
is handed to `self.error` — the ErrorReporter collaborator, which formats
the message and raises `SystemExit`.  Any other exception propagates
unchanged. -/
def handleArgErr {α : Type} : Except Err α → Except Err α
  | .error (.argumentError argName msg) =>
      .error (.systemExit ("argument " ++ argName ++ ": " ++ msg))
  | r => r

/-- Method `parse_args_post` as decorated by `argument_error_and_exit`. -/
def parseArgsPostWrapped (p : Parser) (st : St) (ns : NS)
    (extras : List String) : St × Except Err (NS × List String) :=
  let (st, r) := parseArgsPost p st ns extras
  (st, handleArgErr r)

/-! ## The `setup_parse` decorator -/

/-- Decorator `EnvArgParser.setup_parse`: at depth zero clear `seen_actions` (the
`clears` ghost counter records the event); increment `_parsing_depth`;
run the wrapped parse; decrement the depth on every exit path, including
an exception (`try`/`finally`; the property setter clamps at zero); and
at depth zero only, on success, run the decorated `parse_args_post`. -/
def setupParse (p : Parser)
    (body : St → St × Except Err (NS × List String)) (st : St) :
    St × Except Err (NS × List String) :=
  let runSetup := st.depth = 0
  let st1 := if runSetup then { st with seen := [], clears := st.clears + 1 } else st
  let st2 := { st1 with depth := st1.depth + 1 }
  let (st3, r) := body st2
  let st4 := { st3 with depth := st3.depth - 1 }
  match r with
  | .error e => (st4, .error e)
  | .ok (ns, extras) =>
      if runSetup then parseArgsPostWrapped p st4 ns extras
      else (st4, .ok (ns, extras))

/-! ## The command-line phase

Modelled from the spec: the underlying command-line parse is an external
collaborator (§1, §6).  Its observable contract: it applies static
defaults to namespace entries not already present, consumes the raw
tokens given on the command line for each supplied argument through the
shared value-extraction path `self._get_values` (which marks the action
seen), calls the action (bumping its call count and storing the value)
unless the extracted value is `SUPPRESS`, and finally errors on a
required action that was never seen.  The per-action command-line input
is given as an association list from action identity to its raw tokens. -/

/-- Command-line input: raw tokens per action identity. -/
abbrev Cmd := List (Nat × List String)

/-- Modelled from the spec: default application by the underlying parser —
for each action whose dest is not suppressed, not already bound in the
namespace, and whose default is not the `SUPPRESS` sentinel, bind the
static default. -/
def applyDefaults : List ActionEntry → NS → NS
  | [], ns => ns
  | ⟨a, _⟩ :: rest, ns =>
      if a.dest ≠ suppressDest ∧ ¬ nsHas ns a.dest ∧ ¬ a.default.isSuppress then
        applyDefaults rest (nsSet ns a.dest a.default)
      else applyDefaults rest ns

/-- Modelled from the spec: command-line consumption by the underlying
parser.  For each action with supplied tokens: extract values through the
shared `_get_values` path (marking it seen), and unless the value is
`SUPPRESS`, call the action — bump its call count and store at its dest.
An extraction failure is an `ArgumentError` aborting the parse. -/
def consumeCmd : List ActionEntry → Cmd → St → NS → St × Except Err NS
  | [], _, st, ns => (st, .ok ns)
  | ⟨a, _⟩ :: rest, cmd, st, ns =>
      match cmd.lookup a.id with
      | none => consumeCmd rest cmd st ns
      | some toks =>
          match getValuesP a toks st.seen with
          | (seen, .error e) => ({ st with seen := seen }, .error e)
          | (seen, .ok v) =>
              let st := { st with seen := seen }
              if v.isSuppress then consumeCmd rest cmd st ns
              else consumeCmd rest cmd (bumpCC st a.id) (nsSet ns a.dest v)

/-- Modelled from the spec: the required check of the underlying parser —
after consumption, a required action never marked seen is an
`ArgumentError` ("the following arguments are required"). -/
def requiredCheck : List ActionEntry → St → Except Err Unit
  | [], _ => .ok ()
  | ⟨a, _⟩ :: rest, st =>
      if a.required ∧ a.id ∉ st.seen then
        .error (.argumentError a.dest "this argument is required")
      else requiredCheck rest st

/-- Modelled from the spec: `argparse.ArgumentParser.parse_known_args`
(undecorated) — apply defaults, consume the command line, check required
arguments, return the namespace and the unrecognized extras (empty here:
the model feeds only recognized per-action tokens), with any
`ArgumentError` handed to `self.error` (SystemExit). -/
def parseKnownArgsBody (p : Parser) (cmd : Cmd) (ns0 : NS) (st : St) :
    St × Except Err (NS × List String) :=
  let ns := applyDefaults p.actions ns0
  match consumeCmd p.actions cmd st ns with
  | (st, .error e) => (st, handleArgErr (.error e))
  | (st, .ok ns) =>
      match requiredCheck p.actions st with
      | .error e => (st, handleArgErr (.error e))
      | .ok _ => (st, .ok (ns, []))

/-- Entry point `EnvArgParser.parse_known_args = setup_parse(parse_known_args)`: one
resolution pass over the given per-action command line, starting
namespace `ns0` and parser state `st`. -/
def parseKnownArgs (p : Parser) (cmd : Cmd) (ns0 : NS) (st : St) :
    St × Except Err (NS × List String) :=
  setupParse p (parseKnownArgsBody p cmd ns0) st

/-- Modelled from the spec: the body of
`argparse.ArgumentParser.parse_known_intermixed_args`, which performs two
sequential sub-parses by calling `self.parse_known_args` — the decorated
method — twice, threading the first namespace into the second. -/
def intermixedBody (p : Parser) (cmd1 cmd2 : Cmd) (ns0 : NS) (st : St) :
    St × Except Err (NS × List String) :=
  match parseKnownArgs p cmd1 ns0 st with
  | (st, .error e) => (st, .error e)
  | (st, .ok (ns1, ex1)) =>
      match parseKnownArgs p cmd2 ns1 st with
      | (st, .error e) => (st, .error e)
      | (st, .ok (ns2, ex2)) => (st, .ok (ns2, ex1 ++ ex2))

/-- Entry point `EnvArgParser.parse_known_intermixed_args =
setup_parse(parse_known_intermixed_args)`. -/
def parseKnownIntermixedArgs (p : Parser) (cmd1 cmd2 : Cmd) (ns0 : NS)
    (st : St) : St × Except Err (NS × List String) :=
  setupParse p (intermixedBody p cmd1 cmd2 ns0) st

/-- An initial parser state: nothing seen, depth zero, no calls. -/
def St.init : St := { seen := [], depth := 0, callCounts := [], clears := 0, postRuns := 0 }

/-! ## Declaration-time validation: `EnvArgParser.add_argument`

The validation head of `add_argument` (lines 85-104): pop `env_var` and
`env_var_parse` from the keyword arguments, check them, register the
action through `super().add_argument`, and only then reject environment
keys on positional actions. -/

/-- Python objects as they can be passed for `env_var` / `env_var_parse`:
strings, ints, `None`, or a callable. -/
inductive PyObj where
  | str (s : String)
  | int (n : Int)
  | pynone
  | func
  deriving Repr, DecidableEq

/-- Test `isinstance(x, str)`. -/
def PyObj.isStr : PyObj → Bool
  | .str _ => true
  | _ => false

/-- Test `callable(x)`. -/
def PyObj.isCallable : PyObj → Bool
  | .func => true
  | _ => false

/-- The keyword arguments of one `add_argument` call, as far as the
environment-handling head inspects them: the optional `env_var` and
`env_var_parse` entries (`none` = keyword absent), and whether the
declared argument is positional (`action.option_strings` empty on the
action returned by `super().add_argument`). -/
structure Kwargs where
  envVar : Option PyObj
  envF : Option PyObj
  positional : Bool
  deriving Repr, DecidableEq

/-- The parser as `add_argument` mutates it: the list of registered
action identities, in registration order (`super().add_argument` appends
the new action before the positional check runs). -/
structure DeclParser where
  actions : List Nat
  deriving Repr, DecidableEq

/-- Method `EnvArgParser.add_argument`, lines 85-104: `map_f` pops each keyword,
yielding `(key, present, value-or-default)` with defaults `""` for
`env_var` and the callable `self.env_var_parse` for `env_var_parse`; the
three pre-registration checks raise `ValueError` before
`super().add_argument` runs; the positional check raises after it. -/
def addArgument (p : DeclParser) (kw : Kwargs) (newId : Nat) :
    DeclParser × Except String Nat :=
  let envKGiven := kw.envVar.isSome
  let envKVal := kw.envVar.getD (.str "")
  let envFGiven := kw.envF.isSome
  let envFVal := kw.envF.getD .func
  if envKGiven ∧ ¬ envKVal.isStr then
    (p, .error "Parameter env_var must be a string.")
  else if envFGiven ∧ ¬ envKGiven then
    (p, .error "Parameter env_var_parse requires env_var.")
  else if envFGiven ∧ ¬ envFVal.isCallable then
    (p, .error "Parameter env_var_parse must be callable.")
  else
    let p := { p with actions := p.actions ++ [newId] }
    if envKGiven ∧ kw.positional then
      (p, .error "Positional parameters may not specify env_var.")
    else (p, .ok newId)

/-! ## Helper lemmas -/

/-- The required-relaxation applied by `add_argument` when the variable is
present. -/
def relaxReq (a : Action) : Action := { a with required := false }

theorem relaxReq_id (a : Action) : (relaxReq a).id = a.id := rfl

theorem relaxReq_dest (a : Action) : (relaxReq a).dest = a.dest := rfl

theorem relaxReq_default (a : Action) : (relaxReq a).default = a.default := rfl

theorem relaxReq_required (a : Action) : (relaxReq a).required = false := rfl

theorem relaxReq_nargs (a : Action) : (relaxReq a).nargs = a.nargs := rfl

theorem relaxReq_optionStrings (a : Action) :
    (relaxReq a).optionStrings = a.optionStrings := rfl

theorem relaxReq_const (a : Action) : (relaxReq a).const = a.const := rfl

theorem relaxReq_typ (a : Action) : (relaxReq a).typ = a.typ := rfl

theorem getValue_relax (a : Action) (s : String) :
    getValue (relaxReq a) s = getValue a s := by
  simp only [getValue, relaxReq_typ, relaxReq_dest]

theorem getValueList_relax (a : Action) (args : List String) :
    getValueList (relaxReq a) args = getValueList a args := by
  induction args with
  | nil => rfl
  | cons s rest ih => simp only [getValueList, getValue_relax, ih]

theorem getValuesBase_relax (a : Action) (args : List String) :
    getValuesBase (relaxReq a) args = getValuesBase a args := by
  simp only [getValuesBase, relaxReq_nargs, relaxReq_optionStrings,
    relaxReq_const, relaxReq_default, getValue_relax, getValueList_relax]

theorem envVarParse_relax (s : List Nat) (a : Action) (k v : String) :
    envVarParse s (relaxReq a) k v = envVarParse s a k v := by
  simp only [envVarParse, getValuesP, relaxReq_id, relaxReq_dest,
    relaxReq_nargs, getValuesBase_relax]

theorem attachEnv_present {env : String → Option String} {k vraw : String}
    (a : Action) (f : EnvFun) (h : env k = some vraw) :
    attachEnv env a k f =
      { action := relaxReq a
      , envRec := some { a := relaxReq a, k := k, f := f, v := vraw, p := true } } := by
  unfold attachEnv
  rw [h]
  cases a with
  | mk i d os n r df c t =>
      cases r <;> simp [relaxReq]

theorem attachEnv_absent {env : String → Option String} {k : String}
    (a : Action) (f : EnvFun) (h : env k = none) :
    attachEnv env a k f =
      { action := a
      , envRec := some { a := a, k := k, f := f, v := "", p := false } } := by
  unfold attachEnv
  rw [h]
  simp

/-- A parser with a single environment-capable argument, as declared by
one `add_argument(..., env_var=k, ...)` call. -/
def singleP (env : String → Option String) (a : Action) (k : String)
    (f : EnvFun) : Parser :=
  { actions := [attachEnv env a k f] }

theorem isSuppress_suppress : Value.suppress.isSuppress = true := rfl

theorem nsHas_nil (d : String) : nsHas [] d = false := rfl

theorem shlexRun_ws_all (l : List Char) (acc : List String)
    (h : l.all isShWhitespace = true) : shlexRun l .ws [] false acc = .ok acc := by
  induction l with
  | nil => rfl
  | cons c rest ih =>
      simp only [List.all_cons, Bool.and_eq_true] at h
      simp [shlexRun, h.1, ih h.2]

/-! ## Claim theorems -/

/-- C4: for every arity pattern and token list, the match is greedy and
left-anchored — it consumes the maximum number of leading tokens the
pattern permits and leaves the remainder as leftover.  Unbounded patterns
(`OneOrMore`, `ZeroOrMore`, unbounded `Range`) consume all tokens and
leave zero leftover; `OneOrMore` with zero tokens fails; `Exact n` with
fewer than `n` tokens fails with an arity error rather than
under-consuming; in particular `Exact 3` against 2 tokens fails, and
against 5 tokens consumes 3 and leaves 2. -/
theorem arity_greedy_maximal :
    (∀ v : List String, arityMatch .zeroOrMore v = some (v, []))
    ∧ (∀ v : List String, v ≠ [] → arityMatch .oneOrMore v = some (v, []))
    ∧ (∀ (lo : Nat) (v : List String), lo ≤ v.length →
        arityMatch (.range lo none) v = some (v, []))
    ∧ arityMatch .oneOrMore ([] : List String) = none
    ∧ (∀ (n : Nat) (v : List String), v.length < n →
        arityMatch (.exact n) v = none)
    ∧ arityMatch (.exact 3) ["t1", "t2"] = none
    ∧ arityMatch (.exact 3) ["t1", "t2", "t3", "t4", "t5"]
        = some (["t1", "t2", "t3"], ["t4", "t5"]) := by
  refine ⟨?_, ?_, ?_, rfl, ?_, rfl, rfl⟩
  · intro v
    simp [arityMatch, matchArgument]
  · intro v h
    have hl : 1 ≤ v.length := List.length_pos.mpr h
    simp [arityMatch, matchArgument, hl]
  · intro lo v h
    simp [arityMatch, matchArgument, h]
  · intro n v h
    simp [arityMatch, matchArgument, Nat.not_le.mpr h]

/-- Witness for C4 at concrete inputs: `OneOrMore` against three tokens
consumes all of them, `Exact 4` against three tokens fails. -/
theorem arity_greedy_maximal_witness :
    arityMatch .oneOrMore ["a", "b", "c"] = some (["a", "b", "c"], [])
    ∧ arityMatch (.exact 4) ["a", "b", "c"] = none := by
  have h := arity_greedy_maximal
  exact ⟨h.2.1 ["a", "b", "c"] (by decide), h.2.2.2.2.1 4 ["a", "b", "c"] (by decide)⟩

/-- C5: tokenizing an environment raw string follows POSIX shell
word-splitting — quotes group multi-word values preserving inner
whitespace, whitespace outside quotes separates tokens, an empty or
whitespace-only string yields zero tokens, and in particular the string
`1 2 3 '45  ' 6 7` yields the six tokens 1, 2, 3, `45  `, 6, 7. -/
theorem tokenize_posix :
    shlexSplit "1 2 3 '45  ' 6 7" = .ok ["1", "2", "3", "45  ", "6", "7"]
    ∧ shlexSplit "" = .ok []
    ∧ (∀ s : String, s.data.all isShWhitespace = true → shlexSplit s = .ok [])
    ∧ shlexSplit "a \"b  c\" d" = .ok ["a", "b  c", "d"] := by
  refine ⟨rfl, rfl, ?_, rfl⟩
  intro s h
  unfold shlexSplit
  exact shlexRun_ws_all s.data [] h

/-- Witness for C5: a concrete whitespace-only string yields zero
tokens. -/
theorem tokenize_posix_witness :
    (" \t ".data.all isShWhitespace = true) ∧ shlexSplit " \t " = .ok [] :=
  ⟨rfl, tokenize_posix.2.2.1 " \t " rfl⟩

/-! Concrete fixtures mirroring the repository's example program: `--bar`
with `env_var="BAR"`, `type=int`, `nargs="+"`, `default=22`. -/

/-- The example environment with `BAR="1 2 3 '45  ' 6 7"`. -/
def envBar : String → Option String :=
  fun k => if k = "BAR" then some "1 2 3 '45  ' 6 7" else none

/-- An empty process environment. -/
def envAbsent : String → Option String := fun _ => none

/-- The example `--bar` action (declared not-required here; variants
adjust fields). -/
def barAction : Action :=
  { id := 0, dest := "bar", optionStrings := ["--bar"], nargs := .oneOrMore
  , required := false, default := .int 22, const := .pyNone, typ := .toInt }

/-- C1: for an argument with a command-line value, a present environment
variable, and a static default in one resolution pass, the resolved
namespace value equals the command-line value; with no command-line value
but a present environment variable it equals the environment-derived
value; with neither it equals the static default. -/
theorem precedence_cmd_env_default
    (a : Action) (env : String → Option String) (k vraw : String)
    (toks : List String) (vc : Value)
    (etoks : List String) (n : Nat) (ve : Value)
    (henv : env k = some vraw)
    (hdest : a.dest ≠ suppressDest)
    (hdefS : a.default.isSuppress = false)
    (hcmd : getValuesBase a toks = .ok vc) (hvc : vc.isSuppress = false)
    (hsplit : shlexSplit vraw = .ok etoks)
    (hmatch : matchArgument a.nargs etoks.length = some n)
    (henvv : getValuesBase a (etoks.take n) = .ok ve) (hve : ve.isSuppress = false) :
    ((parseKnownArgs (singleP env a k envVarParse) [(a.id, toks)] [] St.init).2
        = .ok ([(a.dest, vc)], []))
    ∧ ((parseKnownArgs (singleP env a k envVarParse) [] [] St.init).2
        = .ok ([(a.dest, ve)], etoks.drop n))
    ∧ (∀ env2 : String → Option String, env2 k = none → a.required = false →
        (parseKnownArgs (singleP env2 a k envVarParse) [] [] St.init).2
          = .ok ([(a.dest, a.default)], [])) := by
  refine ⟨?_, ?_, ?_⟩
  · simp only [singleP, attachEnv_present a envVarParse henv]
    simp [parseKnownArgs, setupParse, parseKnownArgsBody, applyDefaults, consumeCmd,
      requiredCheck, parseArgsPostWrapped, parseArgsPost, postLoop, handleArgErr,
      getValuesP, insertSeen, ccOf, bumpCC, nsHas, nsGet, nsSet, List.lookup, St.init,
      relaxReq_id, relaxReq_dest, relaxReq_default, relaxReq_required, relaxReq_nargs,
      getValuesBase_relax, envVarParse_relax,
      hdest, hdefS, hcmd, hvc]
  · simp only [singleP, attachEnv_present a envVarParse henv]
    simp [parseKnownArgs, setupParse, parseKnownArgsBody, applyDefaults, consumeCmd,
      requiredCheck, parseArgsPostWrapped, parseArgsPost, postLoop, handleArgErr,
      getValuesP, insertSeen, ccOf, bumpCC, nsHas, nsGet, nsSet, List.lookup, St.init,
      relaxReq_id, relaxReq_dest, relaxReq_default, relaxReq_required, relaxReq_nargs,
      getValuesBase_relax, envVarParse_relax, envVarParse,
      hdest, hdefS, hsplit, hmatch, henvv, hve]
  · intro env2 henv2 hreq
    simp only [singleP, attachEnv_absent a envVarParse henv2]
    simp [parseKnownArgs, setupParse, parseKnownArgsBody, applyDefaults, consumeCmd,
      requiredCheck, parseArgsPostWrapped, parseArgsPost, postLoop, handleArgErr,
      getValuesP, insertSeen, ccOf, bumpCC, nsHas, nsGet, nsSet, List.lookup, St.init,
      hdest, hdefS, hreq]

/-- Witness for C1: the repository's example argument with `BAR` set,
`--bar 7 8` on the command line resolves to `[7, 8]`; without the
command-line value it resolves to `[1, 2, 3, 45, 6, 7]` from the
environment; without both it resolves to the static default `22`. -/
theorem precedence_cmd_env_default_witness :
    ((parseKnownArgs (singleP envBar barAction "BAR" envVarParse)
        [(0, ["7", "8"])] [] St.init).2
      = .ok ([("bar", .list [.int 7, .int 8])], []))
    ∧ ((parseKnownArgs (singleP envBar barAction "BAR" envVarParse) [] [] St.init).2
      = .ok ([("bar", .list [.int 1, .int 2, .int 3, .int 45, .int 6, .int 7])], []))
    ∧ ((parseKnownArgs (singleP envAbsent barAction "BAR" envVarParse) [] [] St.init).2
      = .ok ([("bar", .int 22)], [])) := by
  have h := precedence_cmd_env_default barAction envBar "BAR" "1 2 3 '45  ' 6 7"
    ["7", "8"] (.list [.int 7, .int 8])
    ["1", "2", "3", "45  ", "6", "7"] 6
    (.list [.int 1, .int 2, .int 3, .int 45, .int 6, .int 7])
    rfl (by decide) rfl rfl rfl rfl rfl rfl rfl
  exact ⟨h.1, h.2.1, h.2.2 envAbsent rfl rfl⟩

/-- C2: an argument declared `required=true` whose environment variable is
present has its required flag relaxed to not-required at declaration —
before the underlying command-line parser is ever invoked — so a parse
supplying no command-line value for it does not fail; with the variable
unset and no command-line value, the parse fails for the missing required
argument. -/
theorem required_relaxed_when_env_present
    (a : Action) (env : String → Option String) (k vraw : String)
    (etoks : List String) (n : Nat) (ve : Value)
    (hreq : a.required = true)
    (henv : env k = some vraw)
    (hdest : a.dest ≠ suppressDest)
    (hdefS : a.default.isSuppress = false)
    (hsplit : shlexSplit vraw = .ok etoks)
    (hmatch : matchArgument a.nargs etoks.length = some n)
    (henvv : getValuesBase a (etoks.take n) = .ok ve) (hve : ve.isSuppress = false) :
    ((attachEnv env a k envVarParse).action.required = false)
    ∧ ((parseKnownArgs (singleP env a k envVarParse) [] [] St.init).2
        = .ok ([(a.dest, ve)], etoks.drop n))
    ∧ (∀ env2 : String → Option String, env2 k = none →
        (parseKnownArgs (singleP env2 a k envVarParse) [] [] St.init).2
          = .error (.systemExit
              ("argument " ++ a.dest ++ ": " ++ "this argument is required"))) := by
  refine ⟨?_, ?_, ?_⟩
  · rw [attachEnv_present a envVarParse henv]
    rfl
  · simp only [singleP, attachEnv_present a envVarParse henv]
    simp [parseKnownArgs, setupParse, parseKnownArgsBody, applyDefaults, consumeCmd,
      requiredCheck, parseArgsPostWrapped, parseArgsPost, postLoop, handleArgErr,
      getValuesP, insertSeen, ccOf, bumpCC, nsHas, nsGet, nsSet, List.lookup, St.init,
      relaxReq_id, relaxReq_dest, relaxReq_default, relaxReq_required, relaxReq_nargs,
      getValuesBase_relax, envVarParse_relax, envVarParse,
      hdest, hdefS, hsplit, hmatch, henvv, hve]
  · intro env2 henv2
    simp only [singleP, attachEnv_absent a envVarParse henv2]
    simp [parseKnownArgs, setupParse, parseKnownArgsBody, applyDefaults, consumeCmd,
      requiredCheck, parseArgsPostWrapped, parseArgsPost, postLoop, handleArgErr,
      getValuesP, insertSeen, ccOf, bumpCC, nsHas, nsGet, nsSet, List.lookup, St.init,
      hdest, hdefS, hreq]

/-- Witness for C2: the example `--bar` argument declared required, with
`BAR` set, parses successfully with no command-line value; with `BAR`
unset the parse fails on the missing required argument. -/
theorem required_relaxed_when_env_present_witness :
    ((attachEnv envBar { barAction with required := true } "BAR"
        envVarParse).action.required = false)
    ∧ ((parseKnownArgs (singleP envBar { barAction with required := true }
          "BAR" envVarParse) [] [] St.init).2
        = .ok ([("bar", .list [.int 1, .int 2, .int 3, .int 45, .int 6, .int 7])], []))
    ∧ ((parseKnownArgs (singleP envAbsent { barAction with required := true }
          "BAR" envVarParse) [] [] St.init).2
        = .error (.systemExit "argument bar: this argument is required")) := by
  have h := required_relaxed_when_env_present { barAction with required := true }
    envBar "BAR" "1 2 3 '45  ' 6 7" ["1", "2", "3", "45  ", "6", "7"] 6
    (.list [.int 1, .int 2, .int 3, .int 45, .int 6, .int 7])
    rfl rfl (by decide) rfl rfl rfl rfl rfl
  exact ⟨h.1, h.2.1, h.2.2 envAbsent rfl⟩

/-- The example environment with malformed quoting: `BAR="'"`. -/
def envBad : String → Option String :=
  fun k => if k = "BAR" then some "'" else none

/-- An environment whose `BAR` value fails integer conversion. -/
def envConvBad : String → Option String :=
  fun k => if k = "BAR" then some "x" else none

/-- An environment whose `BAR` value is empty (zero tokens, so a
`OneOrMore` arity match fails). -/
def envEmpty : String → Option String :=
  fun k => if k = "BAR" then some "" else none

/-- Counterexample for C3: with the malformed environment value `BAR="'"`,
the resolution pass fails with the tokenizer's plain `ValueError`, which
`argument_error_and_exit` does not catch — it escapes as an unrelated
unhandled error instead of being wrapped and handed to the ErrorReporter.
A value-conversion failure (`BAR="x"` under `type=int`), by contrast, is
caught and handed to the ErrorReporter as a structured `SystemExit`
naming the argument, so the two failures are not handled alike. -/
theorem malformed_quoting_escapes_counterexample :
    ((parseKnownArgs (singleP envBad barAction "BAR" envVarParse) [] [] St.init).2
      = .error (.valueError "No closing quotation"))
    ∧ ((parseKnownArgs (singleP envConvBad barAction "BAR" envVarParse) [] [] St.init).2
      = .error (.systemExit "argument bar: invalid int value: x")) :=
  ⟨rfl, rfl⟩

/-- C3 (amended): a raw environment string with malformed quoting makes
the post-pass fail with the tokenizer's plain `ValueError`, which escapes
the resolver unhandled — it is not wrapped into the structured
`ArgumentError`-to-ErrorReporter path; only conversion failures and arity
failures, which are `ArgumentError`s, are wrapped into one structured
error identifying the responsible argument and handed to the
ErrorReporter collaborator. -/
theorem env_error_handling
    (a : Action) (env : String → Option String) (k vraw : String)
    (henv : env k = some vraw)
    (hdest : a.dest ≠ suppressDest) :
    (∀ msg : String, shlexSplit vraw = .error msg →
        (parseKnownArgs (singleP env a k envVarParse) [] [] St.init).2
          = .error (.valueError msg))
    ∧ (∀ (etoks : List String) (n : Nat) (nm m : String),
        shlexSplit vraw = .ok etoks →
        matchArgument a.nargs etoks.length = some n →
        getValuesBase a (etoks.take n) = .error (.argumentError nm m) →
        (parseKnownArgs (singleP env a k envVarParse) [] [] St.init).2
          = .error (.systemExit ("argument " ++ nm ++ ": " ++ m)))
    ∧ (∀ etoks : List String,
        shlexSplit vraw = .ok etoks →
        matchArgument a.nargs etoks.length = none →
        (parseKnownArgs (singleP env a k envVarParse) [] [] St.init).2
          = .error (.systemExit
              ("argument " ++ a.dest ++ ": " ++ "expected argument(s)"))) := by
  refine ⟨?_, ?_, ?_⟩
  · intro msg hsplit
    simp only [singleP, attachEnv_present a envVarParse henv]
    simp [parseKnownArgs, setupParse, parseKnownArgsBody, applyDefaults, consumeCmd,
      requiredCheck, parseArgsPostWrapped, parseArgsPost, postLoop, handleArgErr,
      getValuesP, insertSeen, ccOf, bumpCC, nsHas, nsGet, nsSet, List.lookup, St.init,
      relaxReq_id, relaxReq_dest, relaxReq_required, relaxReq_nargs,
      getValuesBase_relax, envVarParse_relax, envVarParse, hdest, hsplit]
  · intro etoks n nm m hsplit hmatch hconv
    simp only [singleP, attachEnv_present a envVarParse henv]
    simp [parseKnownArgs, setupParse, parseKnownArgsBody, applyDefaults, consumeCmd,
      requiredCheck, parseArgsPostWrapped, parseArgsPost, postLoop, handleArgErr,
      getValuesP, insertSeen, ccOf, bumpCC, nsHas, nsGet, nsSet, List.lookup, St.init,
      relaxReq_id, relaxReq_dest, relaxReq_required, relaxReq_nargs,
      getValuesBase_relax, envVarParse_relax, envVarParse, hdest, hsplit, hmatch, hconv]
  · intro etoks hsplit hmatch
    simp only [singleP, attachEnv_present a envVarParse henv]
    simp [parseKnownArgs, setupParse, parseKnownArgsBody, applyDefaults, consumeCmd,
      requiredCheck, parseArgsPostWrapped, parseArgsPost, postLoop, handleArgErr,
      getValuesP, insertSeen, ccOf, bumpCC, nsHas, nsGet, nsSet, List.lookup, St.init,
      relaxReq_id, relaxReq_dest, relaxReq_required, relaxReq_nargs,
      getValuesBase_relax, envVarParse_relax, envVarParse, hdest, hsplit, hmatch]

/-- Witness for C3 (amended) at concrete inputs: the unclosed quote
escapes as a `ValueError`; the conversion failure and the arity failure
are handed to the ErrorReporter as structured `SystemExit`s. -/
theorem env_error_handling_witness :
    ((parseKnownArgs (singleP envBad barAction "BAR" envVarParse) [] [] St.init).2
      = .error (.valueError "No closing quotation"))
    ∧ ((parseKnownArgs (singleP envConvBad barAction "BAR" envVarParse) [] [] St.init).2
      = .error (.systemExit "argument bar: invalid int value: x"))
    ∧ ((parseKnownArgs (singleP envEmpty barAction "BAR" envVarParse) [] [] St.init).2
      = .error (.systemExit "argument bar: expected argument(s)")) := by
  refine ⟨?_, ?_, ?_⟩
  · exact (env_error_handling barAction envBad "BAR" "'" rfl (by decide)).1
      "No closing quotation" rfl
  · exact (env_error_handling barAction envConvBad "BAR" "x" rfl (by decide)).2.1
      ["x"] 1 "bar" "invalid int value: x" rfl rfl rfl
  · exact (env_error_handling barAction envEmpty "BAR" "" rfl (by decide)).2.2
      [] rfl rfl

/-- C6: an environment-resolved argument whose tokenized value has more
tokens than its arity pattern can absorb is resolved from the consumed
leading tokens, and the unconsumed leftover tokens are appended, in
order, to the ExtraTokens sequence returned from the resolution pass —
which is then nonempty. -/
theorem leftover_tokens_propagated
    (a : Action) (env : String → Option String) (k vraw : String)
    (etoks : List String) (n : Nat) (ve : Value)
    (henv : env k = some vraw)
    (hdest : a.dest ≠ suppressDest)
    (hdefS : a.default.isSuppress = false)
    (hsplit : shlexSplit vraw = .ok etoks)
    (hmatch : matchArgument a.nargs etoks.length = some n)
    (hlt : n < etoks.length)
    (henvv : getValuesBase a (etoks.take n) = .ok ve) (hve : ve.isSuppress = false) :
    ((parseKnownArgs (singleP env a k envVarParse) [] [] St.init).2
        = .ok ([(a.dest, ve)], etoks.drop n))
    ∧ etoks.drop n ≠ [] := by
  constructor
  · simp only [singleP, attachEnv_present a envVarParse henv]
    simp [parseKnownArgs, setupParse, parseKnownArgsBody, applyDefaults, consumeCmd,
      requiredCheck, parseArgsPostWrapped, parseArgsPost, postLoop, handleArgErr,
      getValuesP, insertSeen, ccOf, bumpCC, nsHas, nsGet, nsSet, List.lookup, St.init,
      relaxReq_id, relaxReq_dest, relaxReq_default, relaxReq_required, relaxReq_nargs,
      getValuesBase_relax, envVarParse_relax, envVarParse,
      hdest, hdefS, hsplit, hmatch, henvv, hve]
  · intro hdrop
    rw [List.drop_eq_nil_iff] at hdrop
    omega

/-- Witness for C6: `Exact 2` against `BAR="1 2 3"` resolves `--bar` from
the first two tokens and returns `["3"]` as ExtraTokens. -/
theorem leftover_tokens_propagated_witness :
    ((parseKnownArgs
        (singleP (fun k => if k = "BAR" then some "1 2 3" else none)
          { barAction with nargs := .exact 2 } "BAR" envVarParse) [] [] St.init).2
      = .ok ([("bar", .list [.int 1, .int 2])], ["3"]))
    ∧ (["1", "2", "3"].drop 2 ≠ []) :=
  leftover_tokens_propagated { barAction with nargs := .exact 2 }
    (fun k => if k = "BAR" then some "1 2 3" else none) "BAR" "1 2 3"
    ["1", "2", "3"] 2 (.list [.int 1, .int 2])
    rfl (by decide) rfl rfl rfl (by decide) rfl rfl

/-- C7: when an argument's environment resolution function returns the
suppressed sentinel during the post-pass, no entry is applied into the
namespace for that argument — the default entry, or any pre-existing
entry, is left unchanged — while the argument is nevertheless marked seen
and its leftover tokens are still appended to the extras. -/
theorem suppressed_value_applies_nothing
    (a : Action) (env : String → Option String) (k vraw : String)
    (f : EnvFun) (lf : List String)
    (henv : env k = some vraw)
    (hdest : a.dest ≠ suppressDest)
    (hdefS : a.default.isSuppress = false)
    (hf : f [a.id] (relaxReq a) k vraw = ([a.id], .ok (.suppress, lf))) :
    ((parseKnownArgs (singleP env a k f) [] [] St.init).2
        = .ok ([(a.dest, a.default)], lf))
    ∧ (a.id ∈ (parseKnownArgs (singleP env a k f) [] [] St.init).1.seen)
    ∧ (∀ ns0 : NS, nsHas ns0 a.dest = true →
        (parseKnownArgs (singleP env a k f) [] ns0 St.init).2 = .ok (ns0, lf)) := by
  refine ⟨?_, ?_, ?_⟩
  · simp only [singleP, attachEnv_present a f henv]
    simp [parseKnownArgs, setupParse, parseKnownArgsBody, applyDefaults, consumeCmd,
      requiredCheck, parseArgsPostWrapped, parseArgsPost, postLoop, handleArgErr,
      getValuesP, insertSeen, ccOf, bumpCC, nsHas, nsGet, nsSet, List.lookup, St.init,
      relaxReq_id, relaxReq_dest, relaxReq_default, relaxReq_required, relaxReq_nargs,
      hdest, hdefS, hf, isSuppress_suppress]
  · simp only [singleP, attachEnv_present a f henv]
    simp [parseKnownArgs, setupParse, parseKnownArgsBody, applyDefaults, consumeCmd,
      requiredCheck, parseArgsPostWrapped, parseArgsPost, postLoop, handleArgErr,
      getValuesP, insertSeen, ccOf, bumpCC, nsHas, nsGet, nsSet, List.lookup, St.init,
      relaxReq_id, relaxReq_dest, relaxReq_default, relaxReq_required, relaxReq_nargs,
      hdest, hdefS, hf, isSuppress_suppress]
  · intro ns0 hns
    simp only [singleP, attachEnv_present a f henv]
    simp [parseKnownArgs, setupParse, parseKnownArgsBody, applyDefaults, consumeCmd,
      requiredCheck, parseArgsPostWrapped, parseArgsPost, postLoop, handleArgErr,
      getValuesP, insertSeen, ccOf, bumpCC, nsGet, nsSet, List.lookup, St.init,
      relaxReq_id, relaxReq_dest, relaxReq_default, relaxReq_required, relaxReq_nargs,
      hdest, hdefS, hns, hf, isSuppress_suppress]

/-- A custom environment resolution function that always reports the
suppressed sentinel with one leftover token. -/
def suppressEnvFun : EnvFun :=
  fun seen _ _ _ => (seen, .ok (.suppress, ["leftover"]))

/-- Witness for C7: with a resolver returning `SUPPRESS`, the default
entry survives, the argument is marked seen, the leftover token reaches
the extras, and a pre-existing namespace entry survives as well. -/
theorem suppressed_value_applies_nothing_witness :
    ((parseKnownArgs (singleP envBar barAction "BAR" suppressEnvFun) [] [] St.init).2
      = .ok ([("bar", .int 22)], ["leftover"]))
    ∧ (0 ∈ (parseKnownArgs (singleP envBar barAction "BAR" suppressEnvFun)
        [] [] St.init).1.seen)
    ∧ ((parseKnownArgs (singleP envBar barAction "BAR" suppressEnvFun)
        [] [("bar", .int 99)] St.init).2 = .ok ([("bar", .int 99)], ["leftover"])) := by
  have h := suppressed_value_applies_nothing barAction envBar "BAR"
    "1 2 3 '45  ' 6 7" suppressEnvFun ["leftover"] rfl (by decide) rfl rfl
  exact ⟨h.1, h.2.1, h.2.2 [("bar", .int 99)] rfl⟩

/-! ## State lemmas for the `setup_parse` lifecycle -/

theorem insertSeen_subset (i : Nat) (s : List Nat) : s ⊆ insertSeen i s := by
  unfold insertSeen
  split
  · exact List.Subset.refl s
  · exact List.subset_append_left s [i]

theorem consumeCmd_state (entries : List ActionEntry) (cmd : Cmd) (st : St) (ns : NS) :
    (consumeCmd entries cmd st ns).1.depth = st.depth
    ∧ (consumeCmd entries cmd st ns).1.clears = st.clears
    ∧ (consumeCmd entries cmd st ns).1.postRuns = st.postRuns
    ∧ st.seen ⊆ (consumeCmd entries cmd st ns).1.seen := by
  induction entries generalizing st ns with
  | nil => simp [consumeCmd]
  | cons e rest ih =>
      obtain ⟨a, rec?⟩ := e
      cases h : cmd.lookup a.id with
      | none => simpa [consumeCmd, h] using ih st ns
      | some toks =>
          cases hv : getValuesBase a toks with
          | error err => simp [consumeCmd, h, getValuesP, hv, insertSeen_subset]
          | ok v =>
              cases hs : v.isSuppress with
              | true =>
                  have := ih { st with seen := insertSeen a.id st.seen } ns
                  simp [consumeCmd, h, getValuesP, hv, hs] at this ⊢
                  exact ⟨this.1, this.2.1, this.2.2.1,
                    List.Subset.trans (insertSeen_subset a.id st.seen) this.2.2.2⟩
              | false =>
                  have := ih (bumpCC { st with seen := insertSeen a.id st.seen } a.id)
                    (nsSet ns a.dest v)
                  simp [consumeCmd, h, getValuesP, hv, hs, bumpCC] at this ⊢
                  exact ⟨this.1, this.2.1, this.2.2.1,
                    List.Subset.trans (insertSeen_subset a.id st.seen) this.2.2.2⟩

theorem parseKnownArgsBody_state (p : Parser) (cmd : Cmd) (ns0 : NS) (st : St) :
    (parseKnownArgsBody p cmd ns0 st).1.depth = st.depth
    ∧ (parseKnownArgsBody p cmd ns0 st).1.clears = st.clears
    ∧ (parseKnownArgsBody p cmd ns0 st).1.postRuns = st.postRuns
    ∧ st.seen ⊆ (parseKnownArgsBody p cmd ns0 st).1.seen := by
  have hc := consumeCmd_state p.actions cmd st (applyDefaults p.actions ns0)
  rcases h : consumeCmd p.actions cmd st (applyDefaults p.actions ns0) with ⟨st1, r⟩
  rw [h] at hc
  cases r with
  | error e => simpa [parseKnownArgsBody, h] using hc
  | ok ns =>
      cases hr : requiredCheck p.actions st1 with
      | error e => simpa [parseKnownArgsBody, h, hr] using hc
      | ok u => simpa [parseKnownArgsBody, h, hr] using hc

/-- A nested (`_parsing_depth ≠ 0`) call to the decorated
`parse_known_args` never clears the seen tracker, never runs the
post-pass, restores the depth on exit, and only adds seen marks. -/
theorem parseKnownArgs_nested (p : Parser) (cmd : Cmd) (ns0 : NS) (st : St)
    (h : st.depth ≠ 0) :
    (parseKnownArgs p cmd ns0 st).1.depth = st.depth
    ∧ (parseKnownArgs p cmd ns0 st).1.clears = st.clears
    ∧ (parseKnownArgs p cmd ns0 st).1.postRuns = st.postRuns
    ∧ st.seen ⊆ (parseKnownArgs p cmd ns0 st).1.seen := by
  have hb := parseKnownArgsBody_state p cmd ns0 { st with depth := st.depth + 1 }
  rcases hB : parseKnownArgsBody p cmd ns0 { st with depth := st.depth + 1 } with ⟨st3, r⟩
  rw [hB] at hb
  simp only at hb
  cases r with
  | error e =>
      simp [parseKnownArgs, setupParse, h, hB]
      refine ⟨by omega, hb.2.1, hb.2.2.1, hb.2.2.2⟩
  | ok x =>
      simp [parseKnownArgs, setupParse, h, hB]
      refine ⟨by omega, hb.2.1, hb.2.2.1, hb.2.2.2⟩

theorem postLoop_state (entries : List ActionEntry) (st : St) (ns : NS)
    (extras : List String) :
    (postLoop entries st ns extras).1.depth = st.depth
    ∧ (postLoop entries st ns extras).1.clears = st.clears
    ∧ (postLoop entries st ns extras).1.postRuns = st.postRuns := by
  induction entries generalizing st ns extras with
  | nil => simp [postLoop]
  | cons e rest ih =>
      obtain ⟨a, rec?⟩ := e
      by_cases h1 : a.dest = suppressDest
      · simpa [postLoop, h1] using ih st ns extras
      · by_cases h2 : ccOf st a.id > 0 ∧ a.id ∈ st.seen
        · simpa [postLoop, h1, h2] using ih st ns extras
        · cases rec? with
          | none => simpa [postLoop, h1, h2] using ih st ns extras
          | some i =>
              by_cases h3 : i.a.id ≠ a.id
              · simpa [postLoop, h1, h2, h3] using ih st ns extras
              · by_cases h4 : i.p
                · rcases hf : i.f (insertSeen a.id st.seen) i.a i.k i.v with ⟨seen2, r⟩
                  cases r with
                  | error e => simp [postLoop, h1, h2, h3, h4, hf]
                  | ok ve =>
                      obtain ⟨v, e⟩ := ve
                      cases hs : v.isSuppress with
                      | true =>
                          simpa [postLoop, h1, h2, h3, h4, hf, hs] using
                            ih _ ns (extras ++ e)
                      | false =>
                          simpa [postLoop, h1, h2, h3, h4, hf, hs, bumpCC] using
                            ih _ (nsSet ns i.a.dest v) (extras ++ e)
                · simpa [postLoop, h1, h2, h3, h4] using ih st ns extras

theorem postWrapped_state (p : Parser) (st : St) (ns : NS) (extras : List String) :
    (parseArgsPostWrapped p st ns extras).1.depth = st.depth
    ∧ (parseArgsPostWrapped p st ns extras).1.clears = st.clears
    ∧ (parseArgsPostWrapped p st ns extras).1.postRuns = st.postRuns + 1 := by
  have h := postLoop_state p.actions { st with postRuns := st.postRuns + 1 } ns extras
  simp only at h
  rcases hp : postLoop p.actions { st with postRuns := st.postRuns + 1 } ns extras
    with ⟨st2, r⟩
  rw [hp] at h
  simpa [parseArgsPostWrapped, parseArgsPost, hp] using h

/-- At depth zero, `setup_parse` clears the tracker exactly once on
entry, restores depth zero on every exit path, and — when the wrapped
body succeeds — runs the post-pass exactly once on exit. -/
theorem setupParse_outer (p : Parser) (body : St → St × Except Err (NS × List String))
    (st : St) (h : st.depth = 0)
    (hbody : ∀ s : St, s.depth ≠ 0 →
      (body s).1.depth = s.depth ∧ (body s).1.clears = s.clears
      ∧ (body s).1.postRuns = s.postRuns) :
    (setupParse p body st).1.clears = st.clears + 1
    ∧ (setupParse p body st).1.depth = 0
    ∧ (∀ x, (setupParse p body st).2 = .ok x →
        (setupParse p body st).1.postRuns = st.postRuns + 1) := by
  obtain ⟨s0, d0, c0, l0, r0⟩ := st
  simp only at h
  subst h
  have h3 := hbody { seen := [], depth := 1, callCounts := c0, clears := l0 + 1, postRuns := r0 }
    (by simp)
  rcases hB : body { seen := [], depth := 1, callCounts := c0, clears := l0 + 1, postRuns := r0 }
    with ⟨st3, r⟩
  rw [hB] at h3
  simp only at h3 ⊢
  cases r with
  | error e =>
      simp [setupParse, hB]
      exact ⟨h3.2.1, by omega⟩
  | ok x =>
      obtain ⟨nsB, exB⟩ := x
      have hw := postWrapped_state p { st3 with depth := st3.depth - 1 } nsB exB
      simp only at hw
      simp [setupParse, hB]
      exact ⟨by omega, by omega, fun a b => by omega⟩

theorem intermixedBody_state (p : Parser) (cmd1 cmd2 : Cmd) (ns0 : NS) (s : St)
    (hs : s.depth ≠ 0) :
    (intermixedBody p cmd1 cmd2 ns0 s).1.depth = s.depth
    ∧ (intermixedBody p cmd1 cmd2 ns0 s).1.clears = s.clears
    ∧ (intermixedBody p cmd1 cmd2 ns0 s).1.postRuns = s.postRuns := by
  have h1 := parseKnownArgs_nested p cmd1 ns0 s hs
  rcases hA : parseKnownArgs p cmd1 ns0 s with ⟨stA, r1⟩
  rw [hA] at h1
  simp only at h1
  obtain ⟨h1d, h1c, h1p, _⟩ := h1
  cases r1 with
  | error e => simpa [intermixedBody, hA] using ⟨h1d, h1c, h1p⟩
  | ok x =>
      obtain ⟨ns1, ex1⟩ := x
      have h2 := parseKnownArgs_nested p cmd2 ns1 stA (by omega)
      rcases hB : parseKnownArgs p cmd2 ns1 stA with ⟨stB, r2⟩
      rw [hB] at h2
      simp only at h2
      obtain ⟨h2d, h2c, h2p, _⟩ := h2
      cases r2 with
      | error e => simpa [intermixedBody, hA, hB] using ⟨by omega, by omega, by omega⟩
      | ok y => simpa [intermixedBody, hA, hB] using ⟨by omega, by omega, by omega⟩

/-- C8: within one top-level resolution pass that internally performs two
nested sub-parses (intermixed parsing), the seen tracker is cleared
exactly once at outermost entry and the environment post-pass runs
exactly once at outermost exit; the guarding depth counter is restored on
every exit path, including failure; nested calls never clear the tracker
nor run the post-pass and restore the depth themselves; and seen marks
already recorded (by either nested sub-parse) are retained by subsequent
nested sub-parses, so the post-pass sees the marks of both. -/
theorem nested_pass_integrity (p : Parser) (cmd1 cmd2 : Cmd) (ns0 : NS) (st : St)
    (h : st.depth = 0) :
    ((parseKnownIntermixedArgs p cmd1 cmd2 ns0 st).1.clears = st.clears + 1)
    ∧ ((parseKnownIntermixedArgs p cmd1 cmd2 ns0 st).1.depth = 0)
    ∧ (∀ x, (parseKnownIntermixedArgs p cmd1 cmd2 ns0 st).2 = .ok x →
        (parseKnownIntermixedArgs p cmd1 cmd2 ns0 st).1.postRuns = st.postRuns + 1)
    ∧ (∀ (st2 : St) (c : Cmd) (n : NS), st2.depth ≠ 0 →
        (parseKnownArgs p c n st2).1.clears = st2.clears
        ∧ (parseKnownArgs p c n st2).1.postRuns = st2.postRuns
        ∧ (parseKnownArgs p c n st2).1.depth = st2.depth)
    ∧ (∀ (st2 : St) (c : Cmd) (n : NS), st2.depth ≠ 0 →
        st2.seen ⊆ (parseKnownArgs p c n st2).1.seen) := by
  have hmain := setupParse_outer p (intermixedBody p cmd1 cmd2 ns0) st h
    (fun s hs => intermixedBody_state p cmd1 cmd2 ns0 s hs)
  refine ⟨hmain.1, hmain.2.1, hmain.2.2, ?_, ?_⟩
  · intro st2 c n h2
    have hn := parseKnownArgs_nested p c n st2 h2
    exact ⟨hn.2.1, hn.2.2.1, hn.1⟩
  · intro st2 c n h2
    exact (parseKnownArgs_nested p c n st2 h2).2.2.2

/-- A positional `baz` argument without environment participation, as in
the repository's example program. -/
def bazAction : Action :=
  { id := 1, dest := "baz", optionStrings := [], nargs := .one
  , required := false, default := .pyNone, const := .pyNone, typ := .toInt }

/-- A two-argument parser: environment-capable `--bar` plus positional
`baz`. -/
def pTwo : Parser :=
  { actions := [attachEnv envBar barAction "BAR" envVarParse, plainEntry bazAction] }

/-- A parser state as seen by a nested sub-parse: depth one, with the
`--bar` mark already recorded by a previous sub-parse. -/
def stD : St :=
  { seen := [0], depth := 1, callCounts := [], clears := 0, postRuns := 0 }

/-- Witness for C8: a concrete intermixed pass over the two-argument
parser (first sub-parse consumes `--bar 7`, second consumes `baz 123`)
clears once, ends at depth zero, runs the post-pass once; and a nested
sub-parse started at depth one with the first sub-parse's mark neither
clears, nor posts, nor drops that mark. -/
theorem nested_pass_integrity_witness :
    ((parseKnownIntermixedArgs pTwo [(0, ["7"])] [(1, ["123"])] [] St.init).1.clears
      = St.init.clears + 1)
    ∧ ((parseKnownIntermixedArgs pTwo [(0, ["7"])] [(1, ["123"])] [] St.init).1.depth = 0)
    ∧ ((parseKnownIntermixedArgs pTwo [(0, ["7"])] [(1, ["123"])] [] St.init).1.postRuns
      = St.init.postRuns + 1)
    ∧ ((parseKnownArgs pTwo [(1, ["123"])] [] stD).1.clears = stD.clears
        ∧ (parseKnownArgs pTwo [(1, ["123"])] [] stD).1.postRuns = stD.postRuns
        ∧ (parseKnownArgs pTwo [(1, ["123"])] [] stD).1.depth = stD.depth)
    ∧ (stD.seen ⊆ (parseKnownArgs pTwo [(1, ["123"])] [] stD).1.seen) := by
  have h := nested_pass_integrity pTwo [(0, ["7"])] [(1, ["123"])] [] St.init rfl
  exact ⟨h.1, h.2.1,
    h.2.2.1 ([("bar", .list [.int 7]), ("baz", .int 123)], []) rfl,
    h.2.2.2.1 stD [(1, ["123"])] [] (by decide),
    h.2.2.2.2 stD [(1, ["123"])] [] (by decide)⟩

/-- C9: `add_argument` raises a declaration error — never silently
ignored — in exactly these environment-related cases: the environment key
is given and is not a string; a custom environment parser is given
without an environment key; a custom environment parser is given that is
not callable; or an environment key is attached to a positional
argument. -/
theorem declaration_errors_exactly (p : DeclParser) (kw : Kwargs) (newId : Nat) :
    (∃ msg, (addArgument p kw newId).2 = .error msg)
    ↔ ((kw.envVar.isSome ∧ ¬ (kw.envVar.getD (.str "")).isStr)
       ∨ (kw.envF.isSome ∧ ¬ kw.envVar.isSome)
       ∨ (kw.envF.isSome ∧ ¬ (kw.envF.getD .func).isCallable)
       ∨ (kw.envVar.isSome ∧ kw.positional)) := by
  obtain ⟨ev, ef, pos⟩ := kw
  cases ev with
  | none =>
      cases ef with
      | none => cases pos <;> simp [addArgument]
      | some f => cases f <;> cases pos <;>
          simp [addArgument, PyObj.isStr, PyObj.isCallable]
  | some v =>
      cases v <;>
        (cases ef with
         | none => cases pos <;> simp [addArgument, PyObj.isStr, PyObj.isCallable]
         | some f => cases f <;> cases pos <;>
             simp [addArgument, PyObj.isStr, PyObj.isCallable])

/-- Witness for C9 at a concrete declaration: an environment key on a
positional argument is an error. -/
theorem declaration_errors_exactly_witness :
    (∃ msg, (addArgument { actions := [] }
        { envVar := some (.str "BAR"), envF := none, positional := true } 0).2
      = .error msg)
    ↔ (((some (PyObj.str "BAR")).isSome ∧ ¬ ((some (PyObj.str "BAR")).getD (.str "")).isStr)
       ∨ ((none : Option PyObj).isSome ∧ ¬ (some (PyObj.str "BAR")).isSome)
       ∨ ((none : Option PyObj).isSome ∧ ¬ ((none : Option PyObj).getD .func).isCallable)
       ∨ ((some (PyObj.str "BAR")).isSome ∧ true)) :=
  declaration_errors_exactly { actions := [] }
    { envVar := some (.str "BAR"), envF := none, positional := true } 0

/-- C10: when `add_argument` fails because an environment key was
attached to a positional argument, the underlying parser has already
registered the new action, so the action list is mutated despite the
failed declaration (declaration is not atomic on that error path); the
three other declaration errors are raised before registration and leave
the parser unchanged. -/
theorem positional_env_error_after_registration
    (p : DeclParser) (kw : Kwargs) (newId : Nat) :
    (((kw.envVar.isSome ∧ ¬ (kw.envVar.getD (.str "")).isStr)
       ∨ (kw.envF.isSome ∧ ¬ kw.envVar.isSome)
       ∨ (kw.envF.isSome ∧ ¬ (kw.envF.getD .func).isCallable)) →
       (addArgument p kw newId).1 = p
       ∧ (∃ m, (addArgument p kw newId).2 = .error m))
    ∧ (¬ (kw.envVar.isSome ∧ ¬ (kw.envVar.getD (.str "")).isStr) →
       ¬ (kw.envF.isSome ∧ ¬ kw.envVar.isSome) →
       ¬ (kw.envF.isSome ∧ ¬ (kw.envF.getD .func).isCallable) →
       kw.envVar.isSome → kw.positional →
       (addArgument p kw newId).1.actions = p.actions ++ [newId]
       ∧ (∃ m, (addArgument p kw newId).2 = .error m)) := by
  obtain ⟨ev, ef, pos⟩ := kw
  cases ev with
  | none =>
      cases ef with
      | none => cases pos <;> simp [addArgument]
      | some f => cases f <;> cases pos <;>
          simp [addArgument, PyObj.isStr, PyObj.isCallable]
  | some v =>
      cases v <;>
        (cases ef with
         | none => cases pos <;> simp [addArgument, PyObj.isStr, PyObj.isCallable]
         | some f => cases f <;> cases pos <;>
             simp [addArgument, PyObj.isStr, PyObj.isCallable])

/-- Witness for C10 at concrete declarations: a non-string environment
key leaves the parser untouched, while an environment key on a positional
argument leaves the freshly registered action behind. -/
theorem positional_env_error_after_registration_witness :
    ((addArgument { actions := [] }
        { envVar := some (.int 3), envF := none, positional := false } 7).1
      = { actions := [] }
     ∧ (∃ m, (addArgument { actions := [] }
         { envVar := some (.int 3), envF := none, positional := false } 7).2
       = .error m))
    ∧ ((addArgument { actions := [] }
        { envVar := some (.str "BAR"), envF := none, positional := true } 7).1.actions
      = [] ++ [7]
     ∧ (∃ m, (addArgument { actions := [] }
         { envVar := some (.str "BAR"), envF := none, positional := true } 7).2
       = .error m)) :=
  ⟨(positional_env_error_after_registration { actions := [] }
      { envVar := some (.int 3), envF := none, positional := false } 7).1
      (Or.inl (by decide)),
   (positional_env_error_after_registration { actions := [] }
      { envVar := some (.str "BAR"), envF := none, positional := true } 7).2
      (by decide) (by decide) (by decide) (by decide) (by decide)⟩

end EnvArg
